import Mathlib

set_option maxRecDepth 4000

/-!
Verification of the email-automation repository: a shallow embedding of the
contact extractor (`improved_pdf_converter.py`), the sent-log filter, the
batch sender state machine (`email_automation.py`), and the adaptive delay
policy (`email_automation_24x7.py`), together with theorems settling the
specification claims.

Strings are modelled as `List Char` internally (converted to `String` at the
boundary); wall-clock time is modelled as a day number plus microseconds into
the day; Python float arithmetic in the delay policy is modelled exactly over
`ℚ`; randomness and transport outcomes are explicit oracle parameters.
-/

namespace EmailAutomation

/-- Python whitespace (as used by `str.strip`, `str.split()` and regex `\s`):
space, tab, newline, carriage return, vertical tab, form feed. -/
def pyIsSpace (c : Char) : Bool :=
  c == ' ' || c == '\t' || c == '\n' || c == '\r' || c == Char.ofNat 11 || c == Char.ofNat 12

/-- Python `str.strip()`: remove whitespace from both ends. -/
def pyStrip (s : List Char) : List Char :=
  ((s.dropWhile pyIsSpace).reverse.dropWhile pyIsSpace).reverse

/-- Helper for `pyWords`: accumulate the current word (reversed) while
splitting on whitespace runs. -/
def pyWordsAux : List Char → List Char → List (List Char)
  | [], acc => if acc.isEmpty then [] else [acc.reverse]
  | c :: cs, acc =>
    if pyIsSpace c then
      if acc.isEmpty then pyWordsAux cs [] else acc.reverse :: pyWordsAux cs []
    else pyWordsAux cs (c :: acc)

/-- Python `str.split()` with no argument: maximal runs of non-whitespace. -/
def pyWords (s : List Char) : List (List Char) := pyWordsAux s []

/-- Is `pat` a prefix of the second list? -/
def leadsWith : List Char → List Char → Bool
  | [], _ => true
  | _ :: _, [] => false
  | p :: ps, c :: cs => p == c && leadsWith ps cs

/-- Does `needle` occur as a contiguous substring of the second list
(Python `in` on strings)? -/
def containsSub (needle : List Char) : List Char → Bool
  | [] => needle.isEmpty
  | c :: cs => leadsWith needle (c :: cs) || containsSub needle cs

/-- Lower-case every character (Python `str.lower`, ASCII part). -/
def toLowerL (s : List Char) : List Char := s.map Char.toLower

/-- `str.lower` packaged on `String`. -/
def lowerStr (s : String) : String := ⟨toLowerL s.data⟩

/-- Python `str.isdigit()`: nonempty and all digits. -/
def isDigitStr (w : List Char) : Bool := !w.isEmpty && w.all Char.isDigit

/-- `' '.join(ws)` on a list of words. -/
def joinSpace (ws : List (List Char)) : List Char := (ws.intersperse [' ']).flatten

/-- Word character for the regex `\b` boundary: `[A-Za-z0-9_]`. -/
def isWordChar (c : Char) : Bool := c.isAlphanum || c == '_'

/-- Character class of the local part of the email pattern
`[A-Za-z0-9._%+-]` (improved_pdf_converter.py line 44). -/
def isLocalChar (c : Char) : Bool :=
  c.isAlphanum || c == '.' || c == '_' || c == '%' || c == '+' || c == '-'

/-- Character class of the domain part of the email pattern `[A-Za-z0-9.-]`. -/
def isDomainChar (c : Char) : Bool := c.isAlphanum || c == '.' || c == '-'

/-- Character class of the TLD part of the email pattern `[A-Z|a-z]`
(the literal class from the source, which also admits the bar character). -/
def isTldChar (c : Char) : Bool := c.isAlpha || c == '|'

/-- Word-ness of an optional character (`none` for out-of-string). -/
def wordOpt : Option Char → Bool
  | none => false
  | some c => isWordChar c

/-- Regex `\b`: a boundary sits between two positions iff their word-ness
differs. -/
def boundary (a b : Option Char) : Bool := wordOpt a != wordOpt b

/-- Backtracking over the TLD length for `[A-Z|a-z]{2,}\b`: the run of TLD
characters is `run`, the input after the run is `rest`; lengths are tried
greedily from `n` down to 2, each requiring a trailing word boundary.
Returns the matched TLD and the input after it. -/
def tryTldLen (run rest : List Char) : Nat → Option (List Char × List Char)
  | 0 => none
  | n + 1 =>
    if 2 ≤ n + 1 ∧ n + 1 ≤ run.length then
      let tld := run.take (n + 1)
      let after := run.drop (n + 1) ++ rest
      if boundary (some (tld.getLastD 'x')) after.head? then some (tld, after)
      else tryTldLen run rest n
    else tryTldLen run rest n

/-- Match `[A-Z|a-z]{2,}\b` greedily at the start of `t`. -/
def matchTld (t : List Char) : Option (List Char × List Char) :=
  let run := t.takeWhile isTldChar
  tryTldLen run (t.drop run.length) run.length

/-- Backtracking over the split of `[A-Za-z0-9.-]+\.[A-Z|a-z]{2,}\b`:
`run` is the maximal run of domain characters after the `@`, `rest` the
input after it.  Domain-prefix lengths are tried greedily from `n` down
to 1; each requires a literal dot at that index of `run` followed by a
TLD match.  Returns (domain prefix, TLD, remaining input). -/
def tryDomainSplit (run rest : List Char) : Nat → Option (List Char × List Char × List Char)
  | 0 => none
  | p + 1 =>
    if run[p + 1]? = some '.' then
      match matchTld (run.drop (p + 2) ++ rest) with
      | some (tld, rem) => some (run.take (p + 1), tld, rem)
      | none => tryDomainSplit run rest p
    else tryDomainSplit run rest p

/-- Attempt the email pattern `\b[A-Za-z0-9._%+-]+@[A-Za-z0-9.-]+\.[A-Z|a-z]{2,}\b`
at the start of `s`, with `prev` the character before `s`.  The local part
needs no backtracking (`@` is not a local character), the domain/TLD split
backtracks greedily. -/
def matchEmailAt (prev : Option Char) (s : List Char) : Option (List Char) :=
  match s.head? with
  | none => none
  | some c =>
    if boundary prev (some c) then
      let loc := s.takeWhile isLocalChar
      if loc.isEmpty then none
      else
        match s.drop loc.length with
        | '@' :: d =>
          let run := d.takeWhile isDomainChar
          match tryDomainSplit run (d.drop run.length) run.length with
          | some (dp, tld, _) => some (loc ++ '@' :: (dp ++ '.' :: tld))
          | none => none
        | _ => none
    else none

/-- Scan left to right for the first match of the email pattern, as
`re.findall(email_pattern, line)[0]` would produce it. -/
def findFirstEmailAux : Option Char → List Char → Option (List Char)
  | _, [] => none
  | prev, c :: cs =>
    match matchEmailAt prev (c :: cs) with
    | some m => some m
    | none => findFirstEmailAux (some c) cs

/-- First email matched on a line by the extraction regex of
improved_pdf_converter.py line 44; `none` when the line has no match. -/
def findFirstEmail (s : List Char) : Option (List Char) := findFirstEmailAux none s

/-- The sentinel that replaces the matched email during tokenization. -/
def sentinel : List Char := "|||EMAIL|||".data

/-- Python `str.replace(pat, rep)` for a nonempty pattern, with fuel
(`fuel = s.length` always suffices: every step consumes input). -/
def replaceAllAux (pat rep : List Char) : Nat → List Char → List Char
  | 0, s => s
  | fuel + 1, s =>
    match s with
    | [] => []
    | c :: cs =>
      if pat ≠ [] ∧ leadsWith pat (c :: cs) then
        rep ++ replaceAllAux pat rep fuel ((c :: cs).drop pat.length)
      else c :: replaceAllAux pat rep fuel cs

/-- Replace every occurrence of `pat` by `rep` (Python `str.replace`,
nonempty pattern). -/
def replaceAll (pat rep s : List Char) : List Char := replaceAllAux pat rep s.length s

/-- `re.split(r'\s{2,}', s)`: split on runs of two or more whitespace
characters; a single whitespace stays inside its segment.  `acc` is the
current segment reversed; fuel (`s.length` suffices) keeps the
definition structural. -/
def splitRuns2Aux : Nat → List Char → List Char → List (List Char)
  | 0, s, acc => [acc.reverse ++ s]
  | fuel + 1, s, acc =>
    match s with
    | [] => [acc.reverse]
    | c :: cs =>
      if pyIsSpace c then
        match cs with
        | [] => [(c :: acc).reverse]
        | d :: ds =>
          if pyIsSpace d then acc.reverse :: splitRuns2Aux fuel (ds.dropWhile pyIsSpace) []
          else splitRuns2Aux fuel (d :: ds) (c :: acc)
      else splitRuns2Aux fuel cs (c :: acc)

/-- Split on whitespace runs of length at least two. -/
def splitRuns2 (s : List Char) : List (List Char) := splitRuns2Aux s.length s []

/-- The single-space fallback tokenizer of improved_pdf_converter.py
lines 73-94: words are grouped into a running current part; the sentinel
flushes the group; a digit word with an empty current group becomes its
own part.  `current` holds the group in reverse. -/
def groupWords : List (List Char) → List (List Char) → List (List Char)
  | [], current => if current.isEmpty then [] else [joinSpace current.reverse]
  | w :: ws, current =>
    if w = sentinel then
      (if current.isEmpty then [] else [joinSpace current.reverse]) ++ sentinel :: groupWords ws []
    else if isDigitStr w ∧ current.isEmpty then
      w :: groupWords ws current
    else if w.length > 1 ∧ (w.headD ' ').isUpper ∧ current.length < 3 then
      groupWords ws (w :: current)
    else
      groupWords ws (w :: current)

/-- The role keywords of improved_pdf_converter.py line 125. -/
def keywords : List (List Char) :=
  ["manager".data, "director".data, "head".data, "lead".data, "hr".data, "recruiter".data]

/-- `any(title_word in potential_name.lower() for title_word in [...])`. -/
def hasKeyword (s : List Char) : Bool := keywords.any (fun k => containsSub k (toLowerL s))

/-- `re.sub(r'^\d+\s*', '', x).strip()`: trim a leading digit run and the
whitespace after it, then strip. -/
def stripNumPrefixStrip (s : List Char) : List Char :=
  let ds := s.takeWhile Char.isDigit
  pyStrip (if ds.isEmpty then s else (s.drop ds.length).dropWhile pyIsSpace)

/-- Python `email.split('@')[1]`: the segment between the first and the
second `@` (everything after the first `@` when there is no second one). -/
def pyAfterAt (cs : List Char) : List Char :=
  ((cs.dropWhile (· != '@')).drop 1).takeWhile (· != '@')

/-- The final email re-validation of improved_pdf_converter.py line 156:
`'@' not in email or '.' not in email.split('@')[1]`. -/
def emailInvalid (email : List Char) : Bool :=
  !(email.contains '@') || !((pyAfterAt email).contains '.')

/-- A contact record as written by the extractor (improved_pdf_converter.py
lines 165-170). -/
structure Contact where
  company : String
  hr_name : String
  email : String
  position : String
deriving DecidableEq, Repr

/-- A diagnostic entry for a line that produced no record. -/
structure Skipped where
  line_num : Nat
  content : String
  reason : String
deriving DecidableEq, Repr

/-- Per-line outcome of the extractor. -/
inductive LineResult
  | contact (c : Contact)
  | skipped (s : Skipped)
deriving DecidableEq, Repr

/-- The tokenization and field-extraction heuristics of
improved_pdf_converter.py lines 60-153, producing
`(sno, name, title, company)` from the line and its first email. -/
def parseFields (line email : List Char) : List Char × List Char × List Char × List Char :=
  let line_parts := pyStrip (replaceAll email sentinel line)
  let parts :=
    if containsSub [' ', ' '] line_parts then
      ((splitRuns2 line_parts).map pyStrip).filter (fun p => !p.isEmpty)
    else
      groupWords (pyWords line_parts) []
  let email_index : Int :=
    match parts.findIdx? (fun p => p == sentinel) with
    | some i => (i : Int)
    | none => -1
  let step :=
    if parts ≠ [] ∧ isDigitStr (parts.headD []) then
      (parts.headD [], parts.tail, if email_index ≥ 0 then email_index - 1 else email_index)
    else (([] : List Char), parts, email_index)
  let sno := step.1
  let parts1 := step.2.1
  let eidx := step.2.2
  let ntc :=
    if eidx ≥ 0 then
      let before := parts1.take eidx.toNat
      let after := if eidx < (parts1.length : Int) - 1 then parts1.drop (eidx.toNat + 1) else []
      let nt :=
        match before with
        | [] => ("HR Manager".data, "HR Representative".data)
        | [p] =>
          if hasKeyword p then ("HR Manager".data, p) else (p, "HR Representative".data)
        | p :: rest => (p, joinSpace rest)
      let company := if after ≠ [] then joinSpace after else "Unknown Company".data
      (nt.1, nt.2, company)
    else
      ("HR Manager".data, "HR Representative".data, "Unknown Company".data)
  (sno, stripNumPrefixStrip ntc.1, stripNumPrefixStrip ntc.2.1, stripNumPrefixStrip ntc.2.2)

/-- The record constructor of improved_pdf_converter.py lines 165-170,
with the per-field defaults (`Company_<serial-or-line-number>`,
`HR Manager`, `HR Representative`) filling empty fields. -/
def mkContact (line_num : Nat) (sno name title company email : List Char) : Contact :=
  { company := ⟨if company ≠ [] ∧ company ≠ "Unknown Company".data then company
               else "Company_".data ++ (if sno ≠ [] then sno else (toString line_num).data)⟩
    hr_name := ⟨if name ≠ [] then name else "HR Manager".data⟩
    email := ⟨email⟩
    position := ⟨if title ≠ [] then title else "HR Representative".data⟩ }

/-- One iteration of the per-line loop of improved_pdf_converter.py
lines 46-176 on an already-stripped data line. -/
def parse_line (line_num : Nat) (line : List Char) : LineResult :=
  match findFirstEmail line with
  | none => .skipped ⟨line_num, ⟨line⟩, "No email found"⟩
  | some email =>
    let f := parseFields line email
    if emailInvalid email then
      .skipped ⟨line_num, ⟨line⟩, ⟨"Invalid email: ".data ++ email⟩⟩
    else
      .contact (mkContact line_num f.1 f.2.1 f.2.2.1 f.2.2.2 email)

/-- The data-line filter of improved_pdf_converter.py line 39 (applied to
the stripped line). -/
def isDataLine (l : List Char) : Bool :=
  !l.isEmpty && !leadsWith "SNo".data l && !leadsWith "name".data (toLowerL l)

/-- `parse_hr_data_improved` (improved_pdf_converter.py lines 26-178):
split the text into lines, keep stripped non-header lines, parse each,
and return the contacts and the diagnostics in order. -/
def parse_hr_data_improved (text : String) : List Contact × List Skipped :=
  let data_lines := ((text.data.splitOn '\n').map pyStrip).filter isDataLine
  let results := (data_lines.enumFrom 1).map (fun p => parse_line p.1 p.2)
  (results.filterMap (fun r => match r with | .contact c => some c | _ => none),
   results.filterMap (fun r => match r with | .skipped s => some s | _ => none))

/-- The deduplication pass of save_contacts_to_csv
(improved_pdf_converter.py lines 210-221): keep the first record per
lower-cased email, collect later duplicates; `seen` is the set of
lower-cased emails already kept. -/
def dedupPass : List Contact → List String → List Contact × List Contact
  | [], _ => ([], [])
  | c :: cs, seen =>
    if seen.contains (lowerStr c.email) then
      ((dedupPass cs seen).1, c :: (dedupPass cs seen).2)
    else
      (c :: (dedupPass cs (lowerStr c.email :: seen)).1,
       (dedupPass cs (lowerStr c.email :: seen)).2)

/-- The whole-batch dedup entry point: `(unique_contacts, duplicates)`. -/
def save_contacts_dedup (contacts : List Contact) : List Contact × List Contact :=
  dedupPass contacts []

/-- Opening brace character (written by code point to keep it out of
string literals). -/
def braceL : Char := Char.ofNat 123

/-- Closing brace character. -/
def braceR : Char := Char.ofNat 125

/-- Scanner state of the `str.format` model: in literal text, or inside a
placeholder accumulating its name (reversed). -/
inductive FmtState
  | text
  | field (acc : List Char)

/-- Model of Python `str.format(**vals)` as used by personalize_email:
literal text is copied, a doubled brace escapes itself, a placeholder is
replaced by its value, and an unrecognized placeholder name is a
`KeyError` carrying that name (returned as `.error name`). -/
def pyFormatGo (vals : List (String × String)) : List Char → FmtState → Except String (List Char)
  | [], .text => .ok []
  | [], .field _ => .error "Single brace encountered in format string"
  | c :: rest, .field acc =>
    if c = braceR then
      match vals.find? (fun p => p.1.data == acc.reverse) with
      | some p =>
        match pyFormatGo vals rest .text with
        | .ok t => .ok (p.2.data ++ t)
        | .error e => .error e
      | none => .error ⟨acc.reverse⟩
    else pyFormatGo vals rest (.field (c :: acc))
  | c :: rest, .text =>
    if c = braceL then
      match rest with
      | [] => .error "Single brace encountered in format string"
      | d :: rest1 =>
        if d = braceL then
          match pyFormatGo vals rest1 .text with
          | .ok t => .ok (braceL :: t)
          | .error e => .error e
        else pyFormatGo vals (d :: rest1) (.field [])
    else if c = braceR then
      match rest with
      | [] => .error "Single closing brace encountered in format string"
      | d :: rest1 =>
        if d = braceR then
          match pyFormatGo vals rest1 .text with
          | .ok t => .ok (braceR :: t)
          | .error e => .error e
        else .error "Single closing brace encountered in format string"
    else
      match pyFormatGo vals rest .text with
      | .ok t => .ok (c :: t)
      | .error e => .error e

/-- `template.format(**vals)` on strings. -/
def pyFormat (vals : List (String × String)) (template : String) : Except String String :=
  match pyFormatGo vals template.data .text with
  | .ok t => .ok ⟨t⟩
  | .error e => .error e

/-- The configuration fields read by personalize_email
(`config.get` with defaults, email_automation.py lines 178-180). -/
structure PersonalizeCfg where
  candidate_name : Option String
  phone_number : Option String
  email : Option String
deriving DecidableEq, Repr

/-- `personalize_email` (email_automation.py lines 173-194, identically
email_automation_24x7.py lines 95-113): substitute the five recognized
placeholders into the template; a `KeyError` from `str.format` (an
unrecognized placeholder in the template) is returned as `.error`.
Contact records are modelled as fully populated, as the extractor emits
them. -/
def personalize_email (template : String) (contact : Contact) (cfg : PersonalizeCfg) :
    Except String (String × String) :=
  let company_name := contact.company
  let hr_name := contact.hr_name
  let candidate_name := cfg.candidate_name.getD "Abhinay Kumar"
  let phone_number := cfg.phone_number.getD "+91-XXXXXXXXXX"
  let email_address := cfg.email.getD "your_email@gmail.com"
  match pyFormat [("company_name", company_name), ("hr_name", hr_name),
                  ("candidate_name", candidate_name), ("phone_number", phone_number),
                  ("email_address", email_address)] template with
  | .error e => .error e
  | .ok content => .ok ("Application for Developer Role – " ++ candidate_name, content)

/-- `load_email_template` (email_automation.py lines 111-116,
email_automation_24x7.py lines 85-93) in the case where the template file
exists: the file contents are returned unchanged — no placeholder
validation of any kind is performed at load time. -/
def load_email_template (fileContent : String) : String := fileContent

/-- One record of the sent-emails log (log_sent_email,
email_automation.py lines 323-347). -/
structure SentEntry where
  timestamp : String
  email : String
  company : String
  hr_name : String
  subject : String
deriving DecidableEq, Repr

/-- `get_unsent_contacts` (email_automation.py lines 349-368,
email_automation_24x7.py lines 284-303): drop every contact whose email
is in the set of logged emails; membership is exact string equality
(`Series.isin` on the raw `entry['email']` values). -/
def get_unsent_contacts (contacts : List Contact) (sent_log : List SentEntry) : List Contact :=
  let sent_emails := sent_log.map SentEntry.email
  contacts.filter (fun c => !sent_emails.contains c.email)

/-- The mutable campaign-sender state (fields of EmailAutomationSystem /
EmailAutomation24x7).  Dates are day numbers. -/
structure SendState where
  sent_today : Nat
  daily_limit : Nat
  last_sent_date : Nat
  sent_log : List SentEntry
deriving DecidableEq, Repr

/-- Outcome of one send_email call. -/
inductive SendResult
  | limitReached
  | connectFailed
  | personalizeFailed
  | sendFailed
  | sent
deriving DecidableEq, Repr

/-- Externally visible transport actions, for stating what a call did or
did not attempt. -/
inductive Action
  | connectAttempt
  | transportSend (recipient : String)
deriving DecidableEq, Repr

/-- `send_email` (email_automation.py lines 255-321). The wall clock at
entry is `today`; `connect_ok` is the outcome of connect_smtp (after its
internal retries) and `send_ok` the outcome of the `sendmail` call — both
are environment oracles.  Order as in the source: daily-limit guard
first, then the new-day counter reset, (the business-hours wait changes
no state and is not modelled,) then connect, personalize, transport send,
then the counter increment and the log append.  Any failure is caught and
reported as a non-`sent` result with no counter/log change. -/
def send_email (st : SendState) (today : Nat) (connect_ok send_ok : Bool)
    (contact : Contact) (template : String) (cfg : PersonalizeCfg) :
    SendResult × SendState × List Action :=
  if st.sent_today ≥ st.daily_limit then (.limitReached, st, [])
  else
    let st1 := if today > st.last_sent_date then
                 { st with sent_today := 0, last_sent_date := today } else st
    if !connect_ok then (.connectFailed, st1, [.connectAttempt])
    else
      match personalize_email template contact cfg with
      | .error _ => (.personalizeFailed, st1, [.connectAttempt])
      | .ok subject_content =>
        if !send_ok then (.sendFailed, st1, [.connectAttempt, .transportSend contact.email])
        else
          (.sent,
           { st1 with
             sent_today := st1.sent_today + 1,
             sent_log := st1.sent_log ++
               [{ timestamp := toString today, email := contact.email,
                  company := contact.company, hr_name := contact.hr_name,
                  subject := subject_content.1 }] },
           [.connectAttempt, .transportSend contact.email])

/-- Microseconds in a day. -/
def usPerDay : Nat := 86400000000

/-- Python `int()` on a float/rational value: truncation toward zero. -/
def pyInt (q : ℚ) : Int := if 0 ≤ q then ⌊q⌋ else ⌈q⌉

/-- The remaining seconds until `end_of_day = 23:59:59.999999`
(email_automation_24x7.py lines 166-167), for a clock at `nowUs`
microseconds into the day; float arithmetic modelled exactly over `ℚ`. -/
def remainingSecondsQ (nowUs : Nat) : ℚ := (((usPerDay : Int) - 1 - nowUs : Int) : ℚ) / 1000000

/-- The seconds until the next midnight (email_automation_24x7.py
lines 159-160). -/
def untilNextDayQ (nowUs : Nat) : ℚ := (((usPerDay : Int) - nowUs : Int) : ℚ) / 1000000

/-- The delay computation of `calculate_smart_delay`
(email_automation_24x7.py lines 157-188) after the new-day reset, as a
function of the daily limit `L` and the (post-reset) counter `s1`.
`random.randint(a, b)` is modelled as `a + r % (b - a + 1)` with `r` the
randomness oracle; float arithmetic is modelled exactly over `ℚ` and
Python `int()` by `pyInt`. -/
def smart_delay_core (L s1 nowUs r : Nat) : Int :=
  if s1 ≥ L then pyInt (untilNextDayQ nowUs)
  else
    let remaining_emails : Int := (L : Int) - s1
    let remaining_seconds : ℚ := remainingSecondsQ nowUs
    if remaining_emails > 0 then
      let optimal_delay : ℚ := remaining_seconds / (remaining_emails : ℚ)
      let min_delay : ℚ := max 30 (optimal_delay * (3 / 4))
      let max_delay : ℚ := min 300 (optimal_delay * (5 / 4))
      if min_delay ≥ max_delay then
        (30 : Int) + (r % (120 - 30 + 1) : Nat)
      else
        pyInt min_delay +
          ((r % (pyInt max_delay - pyInt min_delay + 1).toNat : Nat) : Int)
    else 60

/-- `calculate_smart_delay` (email_automation_24x7.py lines 148-188):
the new-day counter reset (which here precedes the limit check), then the
delay computation on the post-reset state.  Returns the delay in seconds
and the updated state. -/
def calculate_smart_delay (st : SendState) (nowDay nowUs r : Nat) : Int × SendState :=
  let st1 := if nowDay > st.last_sent_date then
               { st with sent_today := 0, last_sent_date := nowDay } else st
  (smart_delay_core st1.daily_limit st1.sent_today nowUs r, st1)

/-- `send_email` of the 24x7 variant (email_automation_24x7.py
lines 190-259): same guard/reset/connect/personalize/send/increment/log
sequence (no business-hours gate), then `calculate_smart_delay` runs with
a fresh clock `delayDay`/`delayUs` and randomness `rDelay`, updating the
state again before the call returns. -/
def send_email_24x7 (st : SendState) (today : Nat) (connect_ok send_ok : Bool)
    (contact : Contact) (template : String) (cfg : PersonalizeCfg)
    (delayDay delayUs rDelay : Nat) : SendResult × SendState × List Action :=
  if st.sent_today ≥ st.daily_limit then (.limitReached, st, [])
  else
    let st1 := if today > st.last_sent_date then
                 { st with sent_today := 0, last_sent_date := today } else st
    if !connect_ok then (.connectFailed, st1, [.connectAttempt])
    else
      match personalize_email template contact cfg with
      | .error _ => (.personalizeFailed, st1, [.connectAttempt])
      | .ok subject_content =>
        if !send_ok then (.sendFailed, st1, [.connectAttempt, .transportSend contact.email])
        else
          let st2 :=
            { st1 with
              sent_today := st1.sent_today + 1,
              sent_log := st1.sent_log ++
                [{ timestamp := toString today, email := contact.email,
                   company := contact.company, hr_name := contact.hr_name,
                   subject := subject_content.1 }] }
          (.sent, (calculate_smart_delay st2 delayDay delayUs rDelay).2,
           [.connectAttempt, .transportSend contact.email])

/-- The per-contact loop of run_batch (email_automation.py lines 388-395):
send to each batch contact in order, counting successes, and break as
soon as `sent_today` has reached the daily limit.  `env` supplies, per
loop position, the wall-clock date and the two transport outcomes. -/
def run_batch_loop (env : Nat → Nat × Bool × Bool) (template : String) (cfg : PersonalizeCfg) :
    List Contact → SendState → Nat → Nat → SendState × Nat × List Action
  | [], st, _, succ => (st, succ, [])
  | c :: cs, st, i, succ =>
    let r := send_email st (env i).1 (env i).2.1 (env i).2.2 c template cfg
    let succ1 := if r.1 = .sent then succ + 1 else succ
    if r.2.1.sent_today ≥ r.2.1.daily_limit then (r.2.1, succ1, r.2.2)
    else
      let rec1 := run_batch_loop env template cfg cs r.2.1 (i + 1) succ1
      (rec1.1, rec1.2.1, r.2.2 ++ rec1.2.2)

/-- `run_batch` (email_automation.py lines 370-397): filter the unsent
contacts against the log, take the first `batch_size`, and run the send
loop.  Returns the final state, the success count, and the transport
action trace. -/
def run_batch (st : SendState) (contacts : List Contact) (batch_size : Nat)
    (env : Nat → Nat × Bool × Bool) (template : String) (cfg : PersonalizeCfg) :
    SendState × Nat × List Action :=
  let unsent := get_unsent_contacts contacts st.sent_log
  run_batch_loop env template cfg (unsent.take batch_size) st 0 0

/-- The spec-side statement of P5 (amended to exact, case-sensitive email
equality): keep exactly the contacts whose email is not among the logged
emails, in order. -/
def filterUnsentSpec (contacts : List Contact) (sent : List String) : List Contact :=
  contacts.filter (fun c => decide (¬ c.email ∈ sent))

/-! ## Helper lemmas -/

lemma strMk_ne_empty {l : List Char} (h : l ≠ []) : (⟨l⟩ : String) ≠ "" := by
  intro e
  exact h (congrArg String.data e)

lemma tryTldLen_sound {run rest : List Char} :
    ∀ {n : Nat} {tld after : List Char}, tryTldLen run rest n = some (tld, after) →
      (∀ c ∈ tld, c ∈ run) ∧ tld ≠ [] := by
  intro n
  induction n with
  | zero => intro tld after h; simp [tryTldLen] at h
  | succ n ih =>
    intro tld after h
    simp only [tryTldLen] at h
    split at h
    · rename_i hcond
      split at h
      · simp only [Option.some.injEq, Prod.mk.injEq] at h
        obtain ⟨h1, h2⟩ := h
        subst h1
        constructor
        · intro c hc; exact List.take_subset _ _ hc
        · intro he
          have hlen : (run.take (n + 1)).length = 0 := by rw [he]; rfl
          rw [List.length_take] at hlen
          omega
      · exact ih h
    · exact ih h

lemma matchTld_sound {t tld after : List Char} (h : matchTld t = some (tld, after)) :
    (∀ c ∈ tld, isTldChar c = true) ∧ tld ≠ [] := by
  simp only [matchTld] at h
  obtain ⟨hmem, hne⟩ := tryTldLen_sound h
  exact ⟨fun c hc => List.mem_takeWhile_imp (hmem c hc), hne⟩

lemma tryDomainSplit_sound {run rest : List Char} :
    ∀ {n : Nat} {dp tld rem : List Char}, tryDomainSplit run rest n = some (dp, tld, rem) →
      (∀ c ∈ dp, c ∈ run) ∧ dp ≠ [] ∧ (∀ c ∈ tld, isTldChar c = true) ∧ tld ≠ [] := by
  intro n
  induction n with
  | zero => intro dp tld rem h; simp [tryDomainSplit] at h
  | succ p ih =>
    intro dp tld rem h
    simp only [tryDomainSplit] at h
    split at h
    · rename_i hdot
      split at h
      · rename_i tld1 rem1 hmt
        simp only [Option.some.injEq, Prod.mk.injEq] at h
        obtain ⟨h1, h2, h3⟩ := h
        subst h1; subst h2; subst h3
        obtain ⟨htld, htldne⟩ := matchTld_sound hmt
        refine ⟨fun c hc => List.take_subset _ _ hc, ?_, htld, htldne⟩
        intro he
        have hlt : p + 1 < run.length := by
          rcases List.getElem?_eq_some.mp hdot with ⟨hbound, _⟩
          exact hbound
        have hlen : (run.take (p + 1)).length = 0 := by rw [he]; rfl
        rw [List.length_take] at hlen
        omega
      · exact ih h
    · exact ih h

lemma matchEmailAt_shape {prev : Option Char} {s m : List Char}
    (h : matchEmailAt prev s = some m) :
    ∃ loc dp tld, m = loc ++ '@' :: (dp ++ '.' :: tld) ∧ loc ≠ [] ∧
      (∀ c ∈ loc, isLocalChar c = true) ∧ (∀ c ∈ dp, isDomainChar c = true) ∧
      (∀ c ∈ tld, isTldChar c = true) ∧ tld ≠ [] := by
  simp only [matchEmailAt] at h
  split at h
  · exact absurd h (by simp)
  · split at h
    · split at h
      · exact absurd h (by simp)
      · rename_i hloc_ne
        split at h
        · rename_i d hdrop
          split at h
          · rename_i dp tld rem hds
            simp only [Option.some.injEq] at h
            subst h
            obtain ⟨hdpmem, hdpne, htld, htldne⟩ := tryDomainSplit_sound hds
            refine ⟨s.takeWhile isLocalChar, dp, tld, rfl, ?_, ?_, ?_, htld, htldne⟩
            · intro he
              rw [he] at hloc_ne
              exact hloc_ne rfl
            · exact fun c hc => List.mem_takeWhile_imp hc
            · exact fun c hc => List.mem_takeWhile_imp (hdpmem c hc)
          · exact absurd h (by simp)
        · exact absurd h (by simp)
    · exact absurd h (by simp)

lemma findFirstEmailAux_shape : ∀ {prev : Option Char} {s m : List Char},
    findFirstEmailAux prev s = some m →
    ∃ loc dp tld, m = loc ++ '@' :: (dp ++ '.' :: tld) ∧ loc ≠ [] ∧
      (∀ c ∈ loc, isLocalChar c = true) ∧ (∀ c ∈ dp, isDomainChar c = true) ∧
      (∀ c ∈ tld, isTldChar c = true) ∧ tld ≠ [] := by
  intro prev s
  induction s generalizing prev with
  | nil => intro m h; simp [findFirstEmailAux] at h
  | cons c cs ih =>
    intro m h
    rw [findFirstEmailAux] at h
    split at h
    · rename_i m1 hm
      simp only [Option.some.injEq] at h
      subst h
      exact matchEmailAt_shape hm
    · exact ih h

lemma isLocalChar_ne_at {c : Char} (h : isLocalChar c = true) : (c != '@') = true := by
  rcases eq_or_ne c '@' with rfl | hne
  · exact absurd h (by decide)
  · simpa [bne_iff_ne] using hne

lemma isDomainChar_ne_at {c : Char} (h : isDomainChar c = true) : (c != '@') = true := by
  rcases eq_or_ne c '@' with rfl | hne
  · exact absurd h (by decide)
  · simpa [bne_iff_ne] using hne

lemma isTldChar_ne_at {c : Char} (h : isTldChar c = true) : (c != '@') = true := by
  rcases eq_or_ne c '@' with rfl | hne
  · exact absurd h (by decide)
  · simpa [bne_iff_ne] using hne

lemma isLocalChar_not_at {c : Char} (h : isLocalChar c = true) : c ≠ '@' := by
  intro rfl1; subst rfl1; exact absurd h (by decide)

lemma dropWhile_append_at {l1 l2 : List Char} (h : ∀ c ∈ l1, (c != '@') = true) :
    (l1 ++ '@' :: l2).dropWhile (· != '@') = '@' :: l2 := by
  induction l1 with
  | nil => simp [List.dropWhile_cons]
  | cons a l ih =>
    have ha := h a (by simp)
    simp only [List.cons_append, List.dropWhile_cons, ha, if_true]
    exact ih (fun c hc => h c (by simp [hc]))

lemma match_email_valid {line m : List Char} (h : findFirstEmail line = some m) :
    emailInvalid m = false ∧ m ≠ [] ∧ List.count '@' m = 1 := by
  obtain ⟨loc, dp, tld, rfl, hlocne, hloc, hdp, htld, htldne⟩ := findFirstEmailAux_shape h
  have hat_mem : '@' ∈ loc ++ '@' :: (dp ++ '.' :: tld) := by simp
  have hdot_mem : '.' ∈ dp ++ '.' :: tld := by simp
  refine ⟨?_, by simp, ?_⟩
  · unfold emailInvalid pyAfterAt
    have h1 : (loc ++ '@' :: (dp ++ '.' :: tld)).contains '@' = true := by
      simp [List.contains, List.elem_eq_mem]
    have h2 : (loc ++ '@' :: (dp ++ '.' :: tld)).dropWhile (· != '@') = '@' :: (dp ++ '.' :: tld) :=
      dropWhile_append_at (fun c hc => isLocalChar_ne_at (hloc c hc))
    have h3 : (dp ++ '.' :: tld).takeWhile (· != '@') = dp ++ '.' :: tld := by
      apply List.takeWhile_eq_self_iff.mpr
      intro x hx
      rcases List.mem_append.mp hx with hx1 | hx2
      · exact isDomainChar_ne_at (hdp x hx1)
      · rcases List.mem_cons.mp hx2 with rfl | hx3
        · decide
        · exact isTldChar_ne_at (htld x hx3)
    have h4 : (dp ++ '.' :: tld).contains '.' = true := by
      simp [List.contains, List.elem_eq_mem]
    rw [h1, h2]
    simp only [List.drop_succ_cons, List.drop_zero]
    rw [h3, h4]
    rfl
  · have hcl : List.count '@' loc = 0 := by
      rw [List.count_eq_zero]
      intro hmem
      exact isLocalChar_not_at (hloc _ hmem) rfl
    have hcd : List.count '@' (dp ++ '.' :: tld) = 0 := by
      rw [List.count_eq_zero]
      intro hmem
      rcases List.mem_append.mp hmem with hx1 | hx2
      · have := isDomainChar_ne_at (hdp _ hx1)
        simp [bne_iff_ne] at this
      · rcases List.mem_cons.mp hx2 with he | hx3
        · exact absurd he (by decide)
        · have := isTldChar_ne_at (htld _ hx3)
          simp [bne_iff_ne] at this
    rw [List.count_append, List.count_cons_self, hcl, hcd]

lemma parse_line_skipped {ln : Nat} {l : List Char} {s : Skipped}
    (h : parse_line ln l = .skipped s) : s.reason = "No email found" := by
  unfold parse_line at h
  split at h
  · injection h with h2
    subst h2
    rfl
  · rename_i m hm
    rw [(match_email_valid hm).1] at h
    simp at h

lemma parse_line_contact {ln : Nat} {l : List Char} {c : Contact}
    (h : parse_line ln l = .contact c) :
    c.company ≠ "" ∧ c.hr_name ≠ "" ∧ c.email ≠ "" ∧ c.position ≠ "" := by
  unfold parse_line at h
  split at h
  · simp at h
  · rename_i m hm
    obtain ⟨hval, hne, _⟩ := match_email_valid hm
    rw [hval] at h
    simp only [Bool.false_eq_true, if_false] at h
    injection h with h2
    subst h2
    unfold mkContact
    refine ⟨?_, ?_, strMk_ne_empty hne, ?_⟩
    · apply strMk_ne_empty
      split
      · rename_i hcond; exact hcond.1
      · simp
    · apply strMk_ne_empty
      split
      · rename_i hcond; exact hcond
      · simp
    · apply strMk_ne_empty
      split
      · rename_i hcond; exact hcond
      · simp

/-! ## Claim theorems -/

/-- C1 (counterexample): `get_unsent_contacts` compares emails by exact
string equality, not case-insensitively — a contact whose email differs
from a logged email only in letter case is returned, although the claim
requires it to be filtered out. -/
theorem C1_counterexample :
    get_unsent_contacts [⟨"X", "H", "A@x.com", "P"⟩] [⟨"t", "a@x.com", "X", "H", "s"⟩]
        = [⟨"X", "H", "A@x.com", "P"⟩] ∧
    lowerStr "A@x.com" = lowerStr "a@x.com" ∧ ("A@x.com" : String) ≠ "a@x.com" := by
  decide

/-- C1 (amended): `get_unsent_contacts` returns exactly the contacts whose
email is not in the sent-log email set under exact (case-sensitive)
string equality, preserving the relative order of the contact list. -/
theorem C1_amended (contacts : List Contact) (sent_log : List SentEntry) :
    get_unsent_contacts contacts sent_log =
      filterUnsentSpec contacts (sent_log.map SentEntry.email) ∧
    (get_unsent_contacts contacts sent_log).Sublist contacts := by
  constructor
  · unfold get_unsent_contacts filterUnsentSpec
    apply List.filter_congr
    intro c _
    simp only [List.contains, List.elem_eq_mem, decide_not]
  · exact List.filter_sublist _

/-- C2 (counterexample): on the spec's example line the extractor does not
produce the claimed record — the single-space tokenizer groups
"John Smith Senior Recruiter" into one pre-email segment, which contains
the role keyword "recruiter", so the name falls back to the default. -/
theorem C2_counterexample :
    (parse_hr_data_improved "1 John Smith Senior Recruiter john.smith@acme.com Acme Corp").1 ≠
      [{ company := "Acme Corp", hr_name := "John Smith", email := "john.smith@acme.com",
         position := "Senior Recruiter" }] := by
  decide

/-- C2 (amended): on the single input line
"1 John Smith Senior Recruiter john.smith@acme.com Acme Corp" the
extractor produces exactly one record, with email "john.smith@acme.com"
and company "Acme Corp" as claimed, but with the default name
"HR Manager" and with title "John Smith Senior Recruiter" (the whole
pre-email segment), and no diagnostic entry. -/
theorem C2_amended :
    parse_hr_data_improved "1 John Smith Senior Recruiter john.smith@acme.com Acme Corp" =
      ([{ company := "Acme Corp", hr_name := "HR Manager", email := "john.smith@acme.com",
          position := "John Smith Senior Recruiter" }], []) := by
  decide

/-- C5 (code bug): the daily-limit guard of send_email runs before the
new-day counter reset, so a send attempted on a day strictly later than
`last_sent_date` with yesterday's counter at the limit is refused and the
counter is never reset — contradicting the spec's "reset when the
wall-clock date advances". Evaluated at the failing input:
state (sent_today 1, daily_limit 1, last_sent_date day 0), invoked on
day 1 with the transport available. -/
theorem C5_failing_eval :
    send_email ⟨1, 1, 0, []⟩ 1 true true ⟨"Acme", "Sara", "sara@acme.com", "HR"⟩
        "Hello" ⟨none, none, none⟩
      = (.limitReached, ⟨1, 1, 0, []⟩, []) ∧ (1 : Nat) > 0 := by
  decide

/-- C6: whenever `sent_today ≥ daily_limit` holds at entry, send_email (in
both variants) returns the limit-reached failure with no transport
connect attempt and the state unchanged: no log entry is appended and the
counter is not incremented. -/
theorem C6_limit_guard (st : SendState) (today : Nat) (cok sok : Bool)
    (contact : Contact) (template : String) (cfg : PersonalizeCfg)
    (dDay dUs rD : Nat) (h : st.sent_today ≥ st.daily_limit) :
    send_email st today cok sok contact template cfg = (.limitReached, st, []) ∧
    send_email_24x7 st today cok sok contact template cfg dDay dUs rD
      = (.limitReached, st, []) := by
  constructor
  · unfold send_email
    rw [if_pos h]
  · unfold send_email_24x7
    rw [if_pos h]

/-- C6 (witness): concrete instance with the counter at the limit. -/
theorem C6_witness :
    (2 : Nat) ≥ 2 ∧
    (send_email ⟨2, 2, 5, []⟩ 5 true true ⟨"A", "B", "c@d.eu", "E"⟩ "Hi" ⟨none, none, none⟩
       = (.limitReached, ⟨2, 2, 5, []⟩, []) ∧
     send_email_24x7 ⟨2, 2, 5, []⟩ 5 true true ⟨"A", "B", "c@d.eu", "E"⟩ "Hi" ⟨none, none, none⟩
         5 0 0
       = (.limitReached, ⟨2, 2, 5, []⟩, [])) :=
  ⟨by decide,
   C6_limit_guard ⟨2, 2, 5, []⟩ 5 true true ⟨"A", "B", "c@d.eu", "E"⟩ "Hi" ⟨none, none, none⟩
     5 0 0 (by decide)⟩

/-- C8: every record emitted by the extractor has non-empty company, name,
email, and title fields — the construction-time defaults fill every gap. -/
theorem C8_fields_nonempty (text : String) :
    ∀ c ∈ (parse_hr_data_improved text).1,
      c.company ≠ "" ∧ c.hr_name ≠ "" ∧ c.email ≠ "" ∧ c.position ≠ "" := by
  intro c hc
  simp only [parse_hr_data_improved, List.mem_filterMap] at hc
  obtain ⟨r, hr, hmatch⟩ := hc
  cases r with
  | contact c1 =>
    simp only [Option.some.injEq] at hmatch
    subst hmatch
    simp only [List.mem_map] at hr
    obtain ⟨p, _, hp⟩ := hr
    exact parse_line_contact hp
  | skipped s => simp at hmatch

/-- C8 (witness): the record extracted from a concrete line has non-empty
fields. -/
theorem C8_witness :
    ({ company := "Acme Corp", hr_name := "HR Manager", email := "john.smith@acme.com",
       position := "John Smith Senior Recruiter" } : Contact).company ≠ "" ∧
    ({ company := "Acme Corp", hr_name := "HR Manager", email := "john.smith@acme.com",
       position := "John Smith Senior Recruiter" } : Contact).hr_name ≠ "" ∧
    ({ company := "Acme Corp", hr_name := "HR Manager", email := "john.smith@acme.com",
       position := "John Smith Senior Recruiter" } : Contact).email ≠ "" ∧
    ({ company := "Acme Corp", hr_name := "HR Manager", email := "john.smith@acme.com",
       position := "John Smith Senior Recruiter" } : Contact).position ≠ "" :=
  C8_fields_nonempty "1 John Smith Senior Recruiter john.smith@acme.com Acme Corp" _
    (by decide)

/-- C10: every email produced by the extraction regex contains exactly one
at-sign with a dot after it, so the final re-validation branch is
unreachable: the only diagnostic reason the extractor can emit is the
no-email-found one. -/
theorem C10_no_invalid_email (text : String) :
    (∀ line m, findFirstEmail line = some m →
       List.count '@' m = 1 ∧ emailInvalid m = false) ∧
    ∀ sk ∈ (parse_hr_data_improved text).2, sk.reason = "No email found" := by
  constructor
  · intro line m hm
    have h := match_email_valid hm
    exact ⟨h.2.2, h.1⟩
  · intro sk hsk
    simp only [parse_hr_data_improved, List.mem_filterMap] at hsk
    obtain ⟨r, hr, hmatch⟩ := hsk
    cases r with
    | contact c => simp at hmatch
    | skipped s =>
      simp only [Option.some.injEq] at hmatch
      subst hmatch
      simp only [List.mem_map] at hr
      obtain ⟨p, _, hp⟩ := hr
      exact parse_line_skipped hp

lemma dedupPass_fst (cs : List Contact) : ∀ (seen : List String),
    ((dedupPass cs seen).1.map (fun c => lowerStr c.email)).Nodup ∧
    ∀ c ∈ (dedupPass cs seen).1, ¬ lowerStr c.email ∈ seen := by
  induction cs with
  | nil => intro seen; simp [dedupPass]
  | cons c cs ih =>
    intro seen
    by_cases hc : lowerStr c.email ∈ seen
    · have hb : seen.contains (lowerStr c.email) = true := by
        simp [List.contains, List.elem_eq_mem, hc]
      simp only [dedupPass, hb, if_true]
      exact ih seen
    · have hb : seen.contains (lowerStr c.email) = false := by
        simp [List.contains, List.elem_eq_mem, hc]
      simp only [dedupPass, hb, Bool.false_eq_true, if_false]
      obtain ⟨ihn, ihm⟩ := ih (lowerStr c.email :: seen)
      refine ⟨?_, ?_⟩
      · rw [List.map_cons, List.nodup_cons]
        refine ⟨?_, ihn⟩
        intro hmem
        rcases List.mem_map.mp hmem with ⟨c1, hc1, he⟩
        exact ihm c1 hc1 (by rw [he]; exact List.mem_cons_self _ _)
      · intro c1 hc1
        rcases List.mem_cons.mp hc1 with rfl | hc2
        · exact hc
        · intro hmem
          exact ihm c1 hc2 (List.mem_cons_of_mem _ hmem)

lemma dedupPass_of_fresh (cs : List Contact) : ∀ (seen : List String),
    ((cs.map (fun c => lowerStr c.email)).Nodup) →
    (∀ c ∈ cs, ¬ lowerStr c.email ∈ seen) →
    dedupPass cs seen = (cs, []) := by
  induction cs with
  | nil => intro seen _ _; rfl
  | cons c cs ih =>
    intro seen hnd hfresh
    have hb : seen.contains (lowerStr c.email) = false := by
      simp [List.contains, List.elem_eq_mem, hfresh c (List.mem_cons_self _ _)]
    rw [List.map_cons, List.nodup_cons] at hnd
    have hrec : dedupPass cs (lowerStr c.email :: seen) = (cs, []) := by
      apply ih _ hnd.2
      intro c1 hc1
      intro hmem
      rcases List.mem_cons.mp hmem with he | hm
      · exact hnd.1 (List.mem_map.mpr ⟨c1, hc1, he⟩)
      · exact hfresh c1 (List.mem_cons_of_mem _ hc1) hm
    simp only [dedupPass, hb, Bool.false_eq_true, if_false, hrec]

/-- C7: the whole-batch deduplication pass is idempotent — applied to its
own unique output it returns that output unchanged and reports zero
duplicates. -/
theorem C7_dedup_idempotent (contacts : List Contact) :
    save_contacts_dedup (save_contacts_dedup contacts).1 =
      ((save_contacts_dedup contacts).1, []) := by
  unfold save_contacts_dedup
  apply dedupPass_of_fresh
  · exact (dedupPass_fst contacts []).1
  · intro c _
    simp

lemma send_email_cases (st : SendState) (today : Nat) (cok sok : Bool)
    (c : Contact) (tpl : String) (cfg : PersonalizeCfg)
    (hday : today ≤ st.last_sent_date) :
    (send_email st today cok sok c tpl cfg).2.1.daily_limit = st.daily_limit ∧
    (send_email st today cok sok c tpl cfg).2.1.last_sent_date = st.last_sent_date ∧
    (((send_email st today cok sok c tpl cfg).1 = .sent ∧
      (send_email st today cok sok c tpl cfg).2.1.sent_today = st.sent_today + 1 ∧
      st.sent_today < st.daily_limit) ∨
     ((send_email st today cok sok c tpl cfg).1 ≠ .sent ∧
      (send_email st today cok sok c tpl cfg).2.1.sent_today = st.sent_today)) := by
  unfold send_email
  have hnr : ¬ today > st.last_sent_date := by omega
  by_cases hg : st.sent_today ≥ st.daily_limit
  · rw [if_pos hg]
    exact ⟨rfl, rfl, Or.inr ⟨by simp, rfl⟩⟩
  · rw [if_neg hg, if_neg hnr]
    cases cok with
    | false => exact ⟨rfl, rfl, Or.inr ⟨by simp, rfl⟩⟩
    | true =>
      rcases hpe : personalize_email tpl c cfg with e | sc
      · exact ⟨rfl, rfl, Or.inr ⟨by simp, rfl⟩⟩
      · cases sok with
        | false => exact ⟨rfl, rfl, Or.inr ⟨by simp, rfl⟩⟩
        | true => exact ⟨rfl, rfl, Or.inl ⟨rfl, rfl, by omega⟩⟩

lemma run_batch_loop_bound (env : Nat → Nat × Bool × Bool) (tpl : String)
    (cfg : PersonalizeCfg) :
    ∀ (cs : List Contact) (st : SendState) (i succ : Nat),
      st.sent_today ≤ st.daily_limit →
      (∀ j, (env j).1 ≤ st.last_sent_date) →
      (run_batch_loop env tpl cfg cs st i succ).2.1 + st.sent_today ≤
        succ + st.daily_limit := by
  intro cs
  induction cs with
  | nil =>
    intro st i succ h1 _
    simp only [run_batch_loop]
    omega
  | cons c cs ih =>
    intro st i succ h1 h2
    simp only [run_batch_loop]
    obtain ⟨hL, hD, hcase⟩ :=
      send_email_cases st (env i).1 (env i).2.1 (env i).2.2 c tpl cfg (h2 i)
    rcases hcase with ⟨hsent, hinc, hlt⟩ | ⟨hnot, heq⟩
    · rw [if_pos hsent]
      split
      · dsimp only
        omega
      · have hrec := ih (send_email st (env i).1 (env i).2.1 (env i).2.2 c tpl cfg).2.1
          (i + 1) (succ + 1) (by omega) (fun j => by rw [hD]; exact h2 j)
        dsimp only
        omega
    · rw [if_neg hnot]
      split
      · dsimp only
        omega
      · have hrec := ih (send_email st (env i).1 (env i).2.1 (env i).2.2 c tpl cfg).2.1
          (i + 1) succ (by omega) (fun j => by rw [hD]; exact h2 j)
        dsimp only
        omega

/-- C3 (amended): provided the wall-clock date never advances past
`last_sent_date` during the invocation, a single run_batch invocation
performs at most `daily_limit - sent_today` successful sends, where
`sent_today` is the counter at invocation. -/
theorem C3_amended (st : SendState) (contacts : List Contact) (n : Nat)
    (env : Nat → Nat × Bool × Bool) (tpl : String) (cfg : PersonalizeCfg)
    (h0 : st.sent_today ≤ st.daily_limit)
    (hday : ∀ j, (env j).1 ≤ st.last_sent_date) :
    (run_batch st contacts n env tpl cfg).2.1 ≤ st.daily_limit - st.sent_today := by
  simp only [run_batch]
  have h := run_batch_loop_bound env tpl cfg
    ((get_unsent_contacts contacts st.sent_log).take n) st 0 0 h0 hday
  omega

/-- C3 (counterexample): when the date advances during the invocation, the
counter is reset mid-batch and run_batch performs more than
`daily_limit - sent_today` successful sends — here 2 successes with
`daily_limit 2` and `sent_today 1` at invocation. -/
theorem C3_counterexample :
    (run_batch ⟨1, 2, 0, []⟩ [⟨"A", "B", "c@d.eu", "E"⟩, ⟨"F", "G", "h@i.eu", "J"⟩] 2
        (fun _ => (1, true, true)) "Hello" ⟨none, none, none⟩).2.1 = 2 ∧
    ¬ ((2 : Nat) ≤ 2 - 1) := by
  decide

/-- C3 (witness): concrete instance of the amended bound with a constant
clock. -/
theorem C3_witness :
    (run_batch ⟨0, 5, 10, []⟩ [⟨"A", "B", "c@d.eu", "E"⟩, ⟨"F", "G", "h@i.eu", "J"⟩] 2
        (fun _ => (10, true, true)) "Hello" ⟨none, none, none⟩).2.1 ≤ 5 - 0 :=
  C3_amended ⟨0, 5, 10, []⟩ [⟨"A", "B", "c@d.eu", "E"⟩, ⟨"F", "G", "h@i.eu", "J"⟩] 2
    (fun _ => (10, true, true)) "Hello" ⟨none, none, none⟩ (by decide)
    (fun _ => Nat.le.refl)

lemma strData_inj {s t : String} (h : s.data = t.data) : s = t :=
  congrArg String.mk h

lemma pyFormatGo_field_run (vals : List (String × String)) :
    ∀ (nm rest acc : List Char), (∀ c ∈ nm, c ≠ braceR) →
    pyFormatGo vals (nm ++ braceR :: rest) (.field acc) =
      (match vals.find? (fun p => p.1.data == (acc.reverse ++ nm)) with
       | some p =>
         (match pyFormatGo vals rest .text with
          | .ok t => .ok (p.2.data ++ t)
          | .error e => .error e)
       | none => .error ⟨acc.reverse ++ nm⟩) := by
  intro nm
  induction nm with
  | nil =>
    intro rest acc _
    simp [pyFormatGo]
  | cons a ns ih =>
    intro rest acc h
    have ha : a ≠ braceR := h a (by simp)
    simp only [List.cons_append, pyFormatGo, if_neg ha, List.append_eq]
    rw [ih rest (a :: acc) (fun c hc => h c (by simp [hc]))]
    simp [List.reverse_cons, List.append_assoc]

/-- C4 (counterexample): a template referencing the unrecognized
placeholder `unknown_name` passes template loading unchanged (no
TemplateError, no validation), and the failure only surfaces inside
personalize, i.e. at send time, as a missing-key error naming the
placeholder. -/
theorem C4_counterexample :
    load_email_template "Dear \x7bunknown_name\x7d" = "Dear \x7bunknown_name\x7d" ∧
    personalize_email "Dear \x7bunknown_name\x7d" ⟨"Acme", "Sara", "sara@acme.com", "HR"⟩
        ⟨none, none, none⟩
      = .error "unknown_name" :=
  ⟨rfl, rfl⟩

/-- C4 (amended): no load-time placeholder validation exists —
load_email_template returns the template text unchanged for every
template; and a template that references an unrecognized placeholder is
rejected only at send time, inside personalize_email, with an error
naming that placeholder. -/
lemma personalize_email_error {template : String} {contact : Contact}
    {cfg : PersonalizeCfg} {e : String}
    (h : pyFormatGo [("company_name", contact.company), ("hr_name", contact.hr_name),
           ("candidate_name", cfg.candidate_name.getD "Abhinay Kumar"),
           ("phone_number", cfg.phone_number.getD "+91-XXXXXXXXXX"),
           ("email_address", cfg.email.getD "your_email@gmail.com")]
         template.data .text = .error e) :
    personalize_email template contact cfg = .error e := by
  simp only [personalize_email, pyFormat]
  rw [h]

theorem C4_amended (name : String) (contact : Contact) (cfg : PersonalizeCfg)
    (h1 : name.data ≠ [])
    (h2 : ∀ c ∈ name.data, c ≠ braceL ∧ c ≠ braceR)
    (h3 : ¬ name ∈ (["company_name", "hr_name", "candidate_name", "phone_number",
                     "email_address"] : List String)) :
    load_email_template ⟨braceL :: name.data ++ [braceR]⟩
      = ⟨braceL :: name.data ++ [braceR]⟩ ∧
    personalize_email ⟨braceL :: name.data ++ [braceR]⟩ contact cfg = .error name := by
  refine ⟨rfl, ?_⟩
  rcases hnm : name.data with _ | ⟨n0, ns⟩
  · exact absurd hnm h1
  · have hn0 : ¬ n0 = braceL := (h2 n0 (by rw [hnm]; simp)).1
    have hfield : pyFormatGo
        [("company_name", contact.company), ("hr_name", contact.hr_name),
         ("candidate_name", cfg.candidate_name.getD "Abhinay Kumar"),
         ("phone_number", cfg.phone_number.getD "+91-XXXXXXXXXX"),
         ("email_address", cfg.email.getD "your_email@gmail.com")]
        ((n0 :: ns) ++ braceR :: []) (.field []) = .error name := by
      rw [pyFormatGo_field_run _ (n0 :: ns) [] []
        (fun c hc => (h2 c (by rw [hnm]; exact hc)).2)]
      have hfind : List.find?
          (fun p => p.1.data == (List.reverse ([] : List Char) ++ (n0 :: ns)))
          [("company_name", contact.company), ("hr_name", contact.hr_name),
           ("candidate_name", cfg.candidate_name.getD "Abhinay Kumar"),
           ("phone_number", cfg.phone_number.getD "+91-XXXXXXXXXX"),
           ("email_address", cfg.email.getD "your_email@gmail.com")] = none := by
        rw [List.find?_eq_none]
        intro p hp
        simp at hp
        intro hcontra
        have hlist : p.1.data = List.reverse ([] : List Char) ++ n0 :: ns :=
          eq_of_beq hcontra
        have hpn : p.1 = name := by
          apply strData_inj
          rw [hlist, List.reverse_nil, List.nil_append, hnm]
        apply h3
        rcases hp with h | h | h | h | h <;> rw [h] at hpn <;> rw [← hpn] <;> simp
      rw [hfind]
      simp only [List.reverse_nil, List.nil_append]
      rw [← hnm]
    have hgo : pyFormatGo
        [("company_name", contact.company), ("hr_name", contact.hr_name),
         ("candidate_name", cfg.candidate_name.getD "Abhinay Kumar"),
         ("phone_number", cfg.phone_number.getD "+91-XXXXXXXXXX"),
         ("email_address", cfg.email.getD "your_email@gmail.com")]
        (braceL :: (n0 :: (ns ++ [braceR]))) .text = .error name := by
      conv_lhs => rw [pyFormatGo]
      rw [if_pos rfl]
      rw [if_neg hn0]
      exact hfield
    exact personalize_email_error hgo

/-- C4 (witness): concrete instance — the template consisting of the
single unrecognized placeholder `job_title` loads unchanged and fails
only in personalize. -/
theorem C4_witness :
    ("job_title" : String).data ≠ [] ∧
    (load_email_template ⟨braceL :: ("job_title" : String).data ++ [braceR]⟩
       = ⟨braceL :: ("job_title" : String).data ++ [braceR]⟩ ∧
     personalize_email ⟨braceL :: ("job_title" : String).data ++ [braceR]⟩
         ⟨"Acme", "Sara", "sara@acme.com", "HR"⟩ ⟨none, none, none⟩
       = .error "job_title") :=
  ⟨by decide,
   C4_amended "job_title" ⟨"Acme", "Sara", "sara@acme.com", "HR"⟩ ⟨none, none, none⟩
     (by decide) (by decide) (by decide)⟩

lemma smart_delay_core_spec (L s1 nowUs r : Nat) (x : ℚ)
    (hx : x = remainingSecondsQ nowUs / ((L : ℚ) - (s1 : ℚ))) :
    (s1 < L →
       (30 ≤ smart_delay_core L s1 nowUs r ∧ smart_delay_core L s1 nowUs r ≤ 300) ∧
       ((30 : ℚ) ≤ x * (3 / 4) → x * (5 / 4) ≤ 300 →
         ⌊x * (3 / 4)⌋ ≤ smart_delay_core L s1 nowUs r ∧
         smart_delay_core L s1 nowUs r ≤ ⌊x * (5 / 4)⌋)) ∧
    (L ≤ s1 → smart_delay_core L s1 nowUs r = pyInt (untilNextDayQ nowUs)) := by
  constructor
  · intro hlt
    have hge : ¬ s1 ≥ L := by omega
    simp only [smart_delay_core, if_neg hge]
    have hre : ((L : Int) - (s1 : Nat) : Int) > 0 := by omega
    rw [if_pos hre]
    have hxo : ((((L : Int) - (s1 : Nat) : Int)) : ℚ) = (L : ℚ) - (s1 : ℚ) := by
      push_cast
      ring
    rw [hxo, ← hx]
    by_cases hfb : max (30 : ℚ) (x * (3 / 4)) ≥ min (300 : ℚ) (x * (5 / 4))
    · rw [if_pos hfb]
      have h91 : r % 91 < 91 := Nat.mod_lt _ (by norm_num)
      constructor
      · constructor
        · have := Int.ofNat_nonneg (r % 91)
          omega
        · omega
      · intro h30 h300
        exfalso
        have hx40 : (40 : ℚ) ≤ x := by linarith
        have hmd : max (30 : ℚ) (x * (3 / 4)) = x * (3 / 4) := max_eq_right (by linarith)
        have hMd : min (300 : ℚ) (x * (5 / 4)) = x * (5 / 4) := min_eq_right (by linarith)
        rw [hmd, hMd] at hfb
        linarith
    · rw [if_neg hfb]
      have hlt2 : max (30 : ℚ) (x * (3 / 4)) < min (300 : ℚ) (x * (5 / 4)) :=
        lt_of_not_ge hfb
      have h30md : (30 : ℚ) ≤ max (30 : ℚ) (x * (3 / 4)) := le_max_left _ _
      have hMd300 : min (300 : ℚ) (x * (5 / 4)) ≤ 300 := min_le_left _ _
      have h0md : (0 : ℚ) ≤ max (30 : ℚ) (x * (3 / 4)) := by linarith
      have h0Md : (0 : ℚ) ≤ min (300 : ℚ) (x * (5 / 4)) := by linarith
      have ha : pyInt (max (30 : ℚ) (x * (3 / 4))) = ⌊max (30 : ℚ) (x * (3 / 4))⌋ := by
        rw [pyInt, if_pos h0md]
      have hb : pyInt (min (300 : ℚ) (x * (5 / 4))) = ⌊min (300 : ℚ) (x * (5 / 4))⌋ := by
        rw [pyInt, if_pos h0Md]
      rw [ha, hb]
      have hab : ⌊max (30 : ℚ) (x * (3 / 4))⌋ ≤ ⌊min (300 : ℚ) (x * (5 / 4))⌋ :=
        Int.floor_le_floor (le_of_lt hlt2)
      have ha30 : (30 : Int) ≤ ⌊max (30 : ℚ) (x * (3 / 4))⌋ := by
        apply Int.le_floor.mpr
        exact_mod_cast h30md
      have hb300 : ⌊min (300 : ℚ) (x * (5 / 4))⌋ ≤ 300 := by
        have h1 : (⌊min (300 : ℚ) (x * (5 / 4))⌋ : ℚ) ≤ 300 :=
          le_trans (Int.floor_le _) hMd300
        exact_mod_cast h1
      have hn : (((⌊min (300 : ℚ) (x * (5 / 4))⌋ - ⌊max (30 : ℚ) (x * (3 / 4))⌋ + 1).toNat
          : Int)) = ⌊min (300 : ℚ) (x * (5 / 4))⌋ - ⌊max (30 : ℚ) (x * (3 / 4))⌋ + 1 :=
        Int.toNat_of_nonneg (by omega)
      have hmodlt : r % (⌊min (300 : ℚ) (x * (5 / 4))⌋ - ⌊max (30 : ℚ) (x * (3 / 4))⌋
          + 1).toNat < (⌊min (300 : ℚ) (x * (5 / 4))⌋ - ⌊max (30 : ℚ) (x * (3 / 4))⌋
          + 1).toNat := Nat.mod_lt _ (by omega)
      constructor
      · constructor
        · have := Int.ofNat_nonneg
            (r % (⌊min (300 : ℚ) (x * (5 / 4))⌋ - ⌊max (30 : ℚ) (x * (3 / 4))⌋ + 1).toNat)
          omega
        · omega
      · intro h30 h300
        have hmdx : max (30 : ℚ) (x * (3 / 4)) = x * (3 / 4) := max_eq_right (by linarith)
        have hMdx : min (300 : ℚ) (x * (5 / 4)) = x * (5 / 4) := min_eq_right (by linarith)
        rw [hmdx] at hn hmodlt hab ⊢
        rw [hMdx] at hn hmodlt hab ⊢
        have := Int.ofNat_nonneg (r % (⌊x * (5 / 4)⌋ - ⌊x * (3 / 4)⌋ + 1).toNat)
        omega
  · intro hge
    simp only [smart_delay_core, if_pos (by omega : s1 ≥ L)]

/-- C9 (amended): for every state and clock, writing `s1` for the
post-reset counter and `x` for `remainingSeconds / remainingQuota`: when
`s1 < dailyLimit` the returned delay is an integer in the clamp band
[30, 300] for every outcome of the randomization, and whenever the ±25%
interval around `x` fits inside the band the delay lies in the
integer-truncated interval `[⌊0.75 x⌋, ⌊1.25 x⌋]` (Python `int()`
truncates the interval ends, so the lower end can undershoot `0.75 x` by
less than one second); when `s1 ≥ dailyLimit` the delay is the truncated
number of seconds from now until the next day boundary. -/
theorem C9_amended (st : SendState) (nowDay nowUs r : Nat) (d : Int) (s1 : Nat) (x : ℚ)
    (hd : d = (calculate_smart_delay st nowDay nowUs r).1)
    (hs1 : s1 = if nowDay > st.last_sent_date then 0 else st.sent_today)
    (hx : x = remainingSecondsQ nowUs / ((st.daily_limit : ℚ) - (s1 : ℚ))) :
    (s1 < st.daily_limit →
       (30 ≤ d ∧ d ≤ 300) ∧
       ((30 : ℚ) ≤ x * (3 / 4) → x * (5 / 4) ≤ 300 →
         ⌊x * (3 / 4)⌋ ≤ d ∧ d ≤ ⌊x * (5 / 4)⌋)) ∧
    (st.daily_limit ≤ s1 → d = pyInt (untilNextDayQ nowUs)) := by
  have heq : (calculate_smart_delay st nowDay nowUs r).1
      = smart_delay_core st.daily_limit s1 nowUs r := by
    simp only [calculate_smart_delay]
    by_cases hday : nowDay > st.last_sent_date
    · rw [if_pos hday] at hs1
      rw [if_pos hday]
      rw [hs1]
    · rw [if_neg hday] at hs1
      rw [if_neg hday]
      rw [hs1]
  rw [heq] at hd
  subst hd
  exact smart_delay_core_spec st.daily_limit s1 nowUs r x hx

/-- C9 (counterexample): with 41 seconds left in the day and one email of
quota, `remainingSeconds / remainingQuota = 41` and the ±25% interval
[30.75, 51.25] fits inside the clamp band [30, 300], yet the randomized
delay can be 30 seconds (randomness outcome 0), which is strictly below
0.75 × 41 — Python `int()` truncation puts the delay outside the claimed
±25% interval. -/
theorem C9_counterexample :
    (calculate_smart_delay ⟨0, 1, 0, []⟩ 0 (usPerDay - 1 - 41000000) 0).1 = 30 ∧
    remainingSecondsQ (usPerDay - 1 - 41000000) / ((1 : ℚ) - (0 : ℚ)) = 41 ∧
    (30 : ℚ) ≤ 41 * (3 / 4) ∧ (41 : ℚ) * (5 / 4) ≤ 300 ∧
    ¬ ((41 : ℚ) * (3 / 4) ≤ 30) := by
  have h41 : remainingSecondsQ (usPerDay - 1 - 41000000) = 41 := by
    norm_num [remainingSecondsQ, usPerDay]
  refine ⟨?_, by rw [h41]; norm_num, by norm_num, by norm_num, by norm_num⟩
  have hcore : (calculate_smart_delay ⟨0, 1, 0, []⟩ 0 (usPerDay - 1 - 41000000) 0).1
      = smart_delay_core 1 0 (usPerDay - 1 - 41000000) 0 := rfl
  rw [hcore]
  simp only [smart_delay_core]
  rw [if_neg (by omega : ¬ (0 : Nat) ≥ 1)]
  rw [if_pos (by norm_num : ((1 : Nat) : Int) - ((0 : Nat) : Int) > 0)]
  have hopt : remainingSecondsQ (usPerDay - 1 - 41000000) /
      ((((1 : Nat) : Int) - ((0 : Nat) : Int) : Int) : ℚ) = 41 := by
    rw [h41]
    norm_num
  rw [hopt]
  have hmd : max (30 : ℚ) (41 * (3 / 4)) = 41 * (3 / 4) := max_eq_right (by norm_num)
  have hMd : min (300 : ℚ) (41 * (5 / 4)) = 41 * (5 / 4) := min_eq_right (by norm_num)
  rw [hmd, hMd]
  rw [if_neg (by norm_num : ¬ ((41 : ℚ) * (3 / 4) ≥ 41 * (5 / 4)))]
  have ha : pyInt ((41 : ℚ) * (3 / 4)) = 30 := by
    rw [pyInt, if_pos (by norm_num)]
    norm_num [Int.floor_eq_iff]
  have hb : pyInt ((41 : ℚ) * (5 / 4)) = 51 := by
    rw [pyInt, if_pos (by norm_num)]
    norm_num [Int.floor_eq_iff]
  rw [ha, hb]
  norm_num

/-- C9 (witness): with the daily limit already reached (post-reset counter
5 of 5) and 3.5 seconds before midnight, the delay equals the truncated
seconds until the next day boundary. -/
theorem C9_witness :
    (calculate_smart_delay ⟨5, 5, 0, []⟩ 0 (usPerDay - 3500000) 7).1
      = pyInt (untilNextDayQ (usPerDay - 3500000)) :=
  (C9_amended ⟨5, 5, 0, []⟩ 0 (usPerDay - 3500000) 7 _ 5
      (remainingSecondsQ (usPerDay - 3500000) / ((5 : ℚ) - (5 : ℚ)))
      rfl (by decide) rfl).2 (by decide)

/-- C10 (witness): concrete instances of both conjuncts. -/
theorem C10_witness :
    (List.count '@' "john@x.com".data = 1 ∧ emailInvalid "john@x.com".data = false) ∧
    (⟨1, "no email here", "No email found"⟩ : Skipped).reason = "No email found" :=
  ⟨(C10_no_invalid_email "no email here").1 "john@x.com".data "john@x.com".data (by decide),
   (C10_no_invalid_email "no email here").2 ⟨1, "no email here", "No email found"⟩ (by decide)⟩

end EmailAutomation
